import Mathlib

/-!
Verification of the EPM registry client
(`x-pack/plugins/ingest_manager/server/services/epm/registry/index.ts`).

The TypeScript source is shallowly embedded below.  Byte buffers are
modelled as `List Nat`; JavaScript string operations (`String.prototype.split`
with a string separator, `String.prototype.replace` with a string pattern,
template-literal coercion of `undefined`) are modelled by `jsSplit`,
`jsReplaceFirst` and `jsStr`.  Values that may be `undefined` at runtime are
modelled as `Option`.  Collaborator modules that are not part of the source
tree (`cache.ts`, `extract.ts`, the HTTP transport, and the
`KibanaAssetType` enum from `common/types`) are modelled from the
specification and marked as such in their doc comments.
-/

/-- Byte buffers (Node `Buffer`) are modelled as lists of bytes. -/
abbrev Buffer := List Nat

/-- In Node, a `Buffer` object is always truthy in a boolean context such as
`if (buffer)`, even when it has zero length; only `undefined` is falsy.
This definition records that fact where the source tests a `Buffer`. -/
def bufferTruthy (_ : Buffer) : Bool := true

/-- JavaScript template-literal coercion of a possibly-`undefined` string:
`` `${x}` `` yields `"undefined"` when `x` is `undefined`. -/
def jsStr : Option String → String
  | some s => s
  | none => "undefined"

/-- JavaScript falsiness of a possibly-`undefined` string: `!x` is `true`
exactly when `x` is `undefined` or the empty string. -/
def jsFalsy : Option String → Bool
  | none => true
  | some s => s == ""

/-- Split a character list on a separator character, JavaScript style:
the empty list yields `[[]]`, and separators at the ends produce empty
groups (as `"a/".split("/")` yields `["a", ""]`). -/
def splitChars (sep : Char) : List Char → List (List Char)
  | [] => [[]]
  | c :: rest =>
    let r := splitChars sep rest
    if c = sep then [] :: r
    else
      match r with
      | [] => [[c]]
      | g :: gs => (c :: g) :: gs

/-- JavaScript `String.prototype.split` with a one-character separator. -/
def jsSplit (s : String) (sep : Char) : List String :=
  (splitChars sep s.data).map List.asString

/-- Does the second list start with the first? -/
def listStartsWith : List Char → List Char → Bool
  | [], _ => true
  | _ :: _, [] => false
  | p :: ps, c :: cs => p == c && listStartsWith ps cs

/-- Replace the first occurrence of `pat` in a character list by `repl`,
leaving the list unchanged when `pat` does not occur. -/
def replaceFirstChars (pat repl : List Char) : List Char → List Char
  | [] => if listStartsWith pat [] then repl else []
  | c :: rest =>
    if listStartsWith pat (c :: rest) then repl ++ (c :: rest).drop pat.length
    else c :: replaceFirstChars pat repl rest

/-- JavaScript `String.prototype.replace` with a plain-string pattern:
only the first occurrence is replaced; no occurrence leaves the string
unchanged. -/
def jsReplaceFirst (s pat repl : String) : String :=
  (replaceFirstChars pat.data repl.data s.data).asString

/-- The `AssetParts` record returned by `pathParts`.  The TypeScript type
declares the string fields as `string`, but at runtime destructuring a
short split result leaves them `undefined`, so they are modelled as
`Option String`. -/
structure AssetParts where
  pkgkey : Option String
  service : Option String
  type : Option String
  file : Option String
  dataset : Option String
  path : String
deriving DecidableEq, Repr

/-- The tail of `pathParts`: the fields.yml shift.  Source:
`if (file === undefined) { file = type; type = 'fields'; service = ''; }`
followed by building the returned record. -/
def finishParts (path : String) (pkgkey service type file dataset : Option String) :
    AssetParts :=
  if file.isNone then
    { pkgkey, service := some "", type := some "fields", file := type, dataset, path }
  else
    { pkgkey, service, type, file, dataset, path }

/-- Embedding of `pathParts` (index.ts lines 77-105):
`let [pkgkey, service, type, file] = path.split('/')`; when
`service === 'dataset'` the dataset name is saved and the path is re-split
after dropping the first occurrence of `` `dataset/${dataset}/` ``; finally
the fields.yml shift of `finishParts` is applied. -/
def pathParts (path : String) : AssetParts :=
  let segs := jsSplit path '/'
  let pkgkey := segs[0]?
  let service := segs[1]?
  let type := segs[2]?
  let file := segs[3]?
  if service == some "dataset" then
    let dataset := type
    let segs2 := jsSplit (jsReplaceFirst path ("dataset/" ++ jsStr dataset ++ "/") "") '/'
    finishParts path segs2[0]? segs2[1]? segs2[2]? segs2[3]? dataset
  else
    finishParts path pkgkey service type file none

/-- Modelled from the spec: `cache.ts` (`cacheGet`/`cacheSet`) is not in the
source tree.  Spec §4.2: an in-memory mapping with `get(key) -> buffer|absent`
and `set(key, buffer)`, last `set` wins on key collision, no eviction.  The
mapping is modelled as an association list where `set` prepends and `get`
returns the most recent binding. -/
abbrev Cache := List (String × Buffer)

/-- Cache lookup: the most recently set binding for the key, if any. -/
def cacheGet (c : Cache) (k : String) : Option Buffer :=
  (c.find? (fun p => p.1 == k)).map (·.2)

/-- Cache update: prepend, so that the newest binding shadows older ones. -/
def cacheSet (c : Cache) (k : String) (b : Buffer) : Cache :=
  (k, b) :: c

/-- An archive entry (`ArchiveEntry` from extract.ts, re-exported by
index.ts): a path and an optional content buffer; directory entries carry
no buffer. -/
structure ArchiveEntry where
  path : String
  buffer : Option Buffer
deriving DecidableEq, Repr

/-- Modelled from the spec: `untarBuffer` (extract.ts) is not in the source
tree.  Spec §4.3: decompress and walk the archive buffer, apply `filter` to
each entry, and invoke the caller's `onEntry` exactly on the accepted
entries, in order; malformed input fails with a decode error.  Decoding a
buffer into its entry list is abstracted as the `decode` parameter, and the
accepted entries are returned for the caller to fold its `onEntry` over. -/
def untarBuffer (decode : Buffer → Except String (List ArchiveEntry))
    (archiveBuffer : Buffer) (filter : ArchiveEntry → Bool) :
    Except String (List ArchiveEntry) :=
  (decode archiveBuffer).map (fun entries => entries.filter filter)

/-- Embedding of `getOrFetchArchiveBuffer` (index.ts lines 117-131).  The
HTTP transport (`fetchArchiveBuffer`, built on requests.ts/streams.ts,
which are not in the source tree) is abstracted as the `fetch` parameter:
`.ok` is a downloaded buffer, `.error` a thrown fetch failure.  The third
component of the result counts network fetch attempts made by the call
(0 or 1), and the second is the cache after the call; in the source the
checks `if (!buffer)` on the cache lookup and `if (buffer)` on the result
test a `Buffer | undefined`, so the former is the `cacheGet` miss test and
the latter is `bufferTruthy`. -/
def getOrFetchArchiveBuffer (fetch : String → Except String Buffer)
    (cache : Cache) (pkgkey : String) :
    Except String Buffer × Cache × Nat :=
  let key := pkgkey ++ ".tar.gz"
  match cacheGet cache key with
  | some buffer =>
    if bufferTruthy buffer then (.ok buffer, cache, 0)
    else (.error ("no archive buffer for " ++ key), cache, 0)
  | none =>
    match fetch pkgkey with
    | .error e => (.error e, cache, 1)
    | .ok buffer =>
      let cache1 := cacheSet cache key buffer
      if bufferTruthy buffer then (.ok buffer, cache1, 1)
      else (.error ("no archive buffer for " ++ key), cache1, 1)

/-- One step of the `onEntry` callback of `getArchiveInfo` (index.ts lines
62-70), threading the mutated state `(cache, paths)` explicitly:
`if (!file) return; if (buffer) { cacheSet(path, buffer); paths.push(path); }`.
The `if (buffer)` test distinguishes a present buffer from `undefined`
(directory entries); a present empty buffer is truthy. -/
def onEntryStep (st : Cache × List String) (entry : ArchiveEntry) :
    Cache × List String :=
  let file := (pathParts entry.path).file
  if jsFalsy file then st
  else
    match entry.buffer with
    | some buffer => (cacheSet st.1 entry.path buffer, st.2 ++ [entry.path])
    | none => st

/-- Embedding of `getArchiveInfo` (index.ts lines 57-75) composed with
`extract` (lines 107-115): obtain the archive buffer cache-first, run the
extractor under `filter`, and fold the `onEntry` callback over the accepted
entries.  State and fetch counting as in `getOrFetchArchiveBuffer`;
side effects performed before a thrown error persist, so the cache is
returned also on the error paths. -/
def getArchiveInfo (decode : Buffer → Except String (List ArchiveEntry))
    (fetch : String → Except String Buffer) (cache : Cache) (pkgkey : String)
    (filter : ArchiveEntry → Bool) :
    Except String (List String) × Cache × Nat :=
  match getOrFetchArchiveBuffer fetch cache pkgkey with
  | (.error e, cache1, n) => (.error e, cache1, n)
  | (.ok archiveBuffer, cache1, n) =>
    match untarBuffer decode archiveBuffer filter with
    | .error e => (.error e, cache1, n)
    | .ok accepted =>
      let st := accepted.foldl onEntryStep (cache1, [])
      (.ok st.2, st.1, n)

/-- Embedding of `getAsset` (index.ts lines 139-144): cache-only lookup,
throwing `Cannot find asset ${key}` on a miss. -/
def getAsset (cache : Cache) (key : String) : Except String Buffer :=
  match cacheGet cache key with
  | none => .error ("Cannot find asset " ++ key)
  | some buffer => .ok buffer

/-- Entries that `onEntryStep` records: the parsed `file` component is
truthy (neither `undefined` nor empty) and a content buffer is present. -/
def acceptsEntry (e : ArchiveEntry) : Bool :=
  !jsFalsy (pathParts e.path).file && e.buffer.isSome

/-- A per-type grouping of parsed asset parts, in insertion order. -/
abbrev TypeMap := List (String × List AssetParts)

/-- A per-service grouping of per-type groupings, in insertion order. -/
abbrev ServiceMap := List (String × TypeMap)

/-- Push `p` onto the list at key `t`, creating the key at the end when
absent (JS object property insertion order). -/
def insertType (t : String) (p : AssetParts) : TypeMap → TypeMap
  | [] => [(t, [p])]
  | (k, l) :: rest =>
    if k == t then (k, l ++ [p]) :: rest else (k, l) :: insertType t p rest

/-- Push `p` onto the list at keys `(s, t)`, creating missing keys at the
end: `if (!map[s]) map[s] = {}; if (!map[s][t]) map[s][t] = []; map[s][t].push(parts)`. -/
def insertSvc (s t : String) (p : AssetParts) : ServiceMap → ServiceMap
  | [] => [(s, insertType t p [])]
  | (k, tm) :: rest =>
    if k == s then (k, insertType t p tm) :: rest else (k, tm) :: insertSvc s t p rest

/-- Strip the anchored regex `/^\/package\//`: remove a leading
`/package/` when present. -/
def stripLeadingPackage (s : String) : String :=
  if "/package/".data.isPrefixOf s.data then s.drop 9 else s

/-- One step of the reduce in `groupPathsByService` (index.ts lines
148-157).  Membership of `parts.type` in the `KibanaAssetType` enum
(common/types, not in the source tree) is modelled from the spec as the
predicate parameter `isKAT` ("asset types recognized as belonging to a
known target-platform taxonomy"); JS property keys coerce `undefined` to
`"undefined"`, hence `jsStr`. -/
def groupStep (isKAT : String → Bool) (m : ServiceMap) (path : String) :
    ServiceMap :=
  let parts := pathParts (stripLeadingPackage path)
  if isKAT (jsStr parts.type) then
    insertSvc (jsStr parts.service) (jsStr parts.type) parts m
  else m

/-- Lookup of one service's group in the accumulated map. -/
def lookupSvc (m : ServiceMap) (k : String) : Option TypeMap :=
  (m.find? (fun p => p.1 == k)).map (·.2)

/-- Lookup of one type's list in a service's group. -/
def lookupType (tm : TypeMap) (k : String) : Option (List AssetParts) :=
  (tm.find? (fun p => p.1 == k)).map (·.2)

/-- Embedding of `groupPathsByService` (index.ts lines 146-163): reduce the
paths into a service→type→parts map, then return only the `kibana`
property of it (`return { kibana: assets.kibana }`; the `elasticsearch`
line is commented out in the source).  `none` models `assets.kibana`
being `undefined`. -/
def groupPathsByService (isKAT : String → Bool) (paths : List String) :
    Option TypeMap :=
  lookupSvc (paths.foldl (groupStep isKAT) []) "kibana"

/-- The list grouped under service `s` and type `t`, empty when either key
is absent. -/
def groupAt (m : ServiceMap) (s t : String) : List AssetParts :=
  match lookupSvc m s with
  | none => []
  | some tm =>
    match lookupType tm t with
    | none => []
    | some l => l

/-- The list under type `t` in the value returned by
`groupPathsByService`, empty when the `kibana` property is absent. -/
def kibanaGroupAt (o : Option TypeMap) (t : String) : List AssetParts :=
  match o with
  | none => []
  | some tm =>
    match lookupType tm t with
    | none => []
    | some l => l

/-- The parsed parts of the paths whose (stripped, parsed) type the
taxonomy recognizes, in input order. -/
def acceptedParts (isKAT : String → Bool) (paths : List String) :
    List AssetParts :=
  (paths.map (fun p => pathParts (stripLeadingPackage p))).filter
    (fun parts => isKAT (jsStr parts.type))

/-- The content buffer of an entry, defaulting to the empty buffer. -/
def entryBuf (e : ArchiveEntry) : Buffer := e.buffer.getD []

theorem cacheGet_cacheSet (c : Cache) (k k' : String) (b : Buffer) :
    cacheGet (cacheSet c k b) k' = if k = k' then some b else cacheGet c k' := by
  by_cases h : k = k'
  · subst h; simp [cacheGet, cacheSet, List.find?]
  · have hb : (k == k') = false := by simp [h]
    simp [cacheGet, cacheSet, List.find?, hb, h]

theorem cacheGet_isSome_cacheSet (c : Cache) (k k' : String) (b : Buffer)
    (h : (cacheGet c k).isSome) : (cacheGet (cacheSet c k' b) k).isSome := by
  rw [cacheGet_cacheSet]
  split <;> simp [h]

theorem onEntryStep_eq (st : Cache × List String) (e : ArchiveEntry) :
    onEntryStep st e =
      if acceptsEntry e then (cacheSet st.1 e.path (entryBuf e), st.2 ++ [e.path])
      else st := by
  unfold onEntryStep acceptsEntry entryBuf
  cases hb : e.buffer <;> cases hf : jsFalsy (pathParts e.path).file <;> simp [hb, hf]

theorem foldl_onEntryStep_snd (l : List ArchiveEntry) (c : Cache) (ps : List String) :
    (l.foldl onEntryStep (c, ps)).2 = ps ++ (l.filter acceptsEntry).map (·.path) := by
  induction l generalizing c ps with
  | nil => simp
  | cons e rest ih =>
    rw [List.foldl_cons, onEntryStep_eq]
    by_cases ha : acceptsEntry e = true
    · simp [ha, ih]
    · simp [ha, ih]

theorem foldl_onEntryStep_get_untouched (l : List ArchiveEntry) (c : Cache)
    (ps : List String) (k : String)
    (h : ∀ e ∈ l, acceptsEntry e = true → e.path ≠ k) :
    cacheGet (l.foldl onEntryStep (c, ps)).1 k = cacheGet c k := by
  induction l generalizing c ps with
  | nil => rfl
  | cons e rest ih =>
    rw [List.foldl_cons, onEntryStep_eq]
    by_cases ha : acceptsEntry e = true
    · rw [if_pos ha,
        ih _ _ (fun e' he' => h e' (List.mem_cons_of_mem _ he')),
        cacheGet_cacheSet, if_neg (h e (List.mem_cons_self e rest) ha)]
    · rw [if_neg ha]
      exact ih _ _ (fun e' he' => h e' (List.mem_cons_of_mem _ he'))

theorem foldl_onEntryStep_isSome (l : List ArchiveEntry) (c : Cache)
    (ps : List String) (k : String) (h : (cacheGet c k).isSome) :
    (cacheGet (l.foldl onEntryStep (c, ps)).1 k).isSome := by
  induction l generalizing c ps with
  | nil => exact h
  | cons e rest ih =>
    rw [List.foldl_cons, onEntryStep_eq]
    by_cases ha : acceptsEntry e = true
    · rw [if_pos ha]
      exact ih _ _ (cacheGet_isSome_cacheSet _ _ _ _ h)
    · rw [if_neg ha]
      exact ih _ _ h

theorem foldl_onEntryStep_cacheGet (l : List ArchiveEntry) (c : Cache)
    (ps : List String)
    (hnodup : ((l.filter acceptsEntry).map (·.path)).Nodup) :
    ∀ e ∈ l, acceptsEntry e = true → ∀ b, e.buffer = some b →
      cacheGet (l.foldl onEntryStep (c, ps)).1 e.path = some b := by
  induction l generalizing c ps with
  | nil => intro e he; cases he
  | cons a rest ih =>
    intro e he hacc b hb
    rw [List.foldl_cons, onEntryStep_eq]
    rcases List.mem_cons.mp he with rfl | he'
    · rw [if_pos hacc]
      have hmem : ((e :: rest).filter acceptsEntry).map (·.path) =
          e.path :: (rest.filter acceptsEntry).map (·.path) := by
        simp [List.filter_cons_of_pos hacc]
      rw [hmem] at hnodup
      have hnot : ∀ e' ∈ rest, acceptsEntry e' = true → e'.path ≠ e.path := by
        intro e' he'' hacc' heq
        exact (List.nodup_cons.mp hnodup).1
          (heq ▸ List.mem_map_of_mem (·.path) (List.mem_filter.mpr ⟨he'', hacc'⟩))
      rw [foldl_onEntryStep_get_untouched _ _ _ _ hnot, cacheGet_cacheSet,
        if_pos rfl]
      simp [entryBuf, hb]
    · have hrest : ((rest.filter acceptsEntry).map (·.path)).Nodup := by
        by_cases ha : acceptsEntry a = true
        · rw [List.filter_cons_of_pos ha] at hnodup
          exact (List.nodup_cons.mp hnodup).2
        · rwa [List.filter_cons_of_neg ha] at hnodup
      by_cases ha : acceptsEntry a = true
      · rw [if_pos ha]
        exact ih _ _ hrest e he' hacc b hb
      · rw [if_neg ha]
        exact ih _ _ hrest e he' hacc b hb

theorem getOrFetch_hit (fetch : String → Except String Buffer) (cache : Cache)
    (pkgkey : String) (b : Buffer)
    (hc : cacheGet cache (pkgkey ++ ".tar.gz") = some b) :
    getOrFetchArchiveBuffer fetch cache pkgkey = (.ok b, cache, 0) := by
  simp [getOrFetchArchiveBuffer, hc, bufferTruthy]

theorem getOrFetch_miss_ok (fetch : String → Except String Buffer) (cache : Cache)
    (pkgkey : String) (b : Buffer)
    (hc : cacheGet cache (pkgkey ++ ".tar.gz") = none)
    (hf : fetch pkgkey = .ok b) :
    getOrFetchArchiveBuffer fetch cache pkgkey =
      (.ok b, cacheSet cache (pkgkey ++ ".tar.gz") b, 1) := by
  simp [getOrFetchArchiveBuffer, hc, hf, bufferTruthy]

theorem getOrFetch_miss_error (fetch : String → Except String Buffer) (cache : Cache)
    (pkgkey : String) (e : String)
    (hc : cacheGet cache (pkgkey ++ ".tar.gz") = none)
    (hf : fetch pkgkey = .error e) :
    getOrFetchArchiveBuffer fetch cache pkgkey = (.error e, cache, 1) := by
  simp [getOrFetchArchiveBuffer, hc, hf]

theorem getOrFetch_isSome_mono (fetch : String → Except String Buffer)
    (cache : Cache) (pkgkey k : String) (h : (cacheGet cache k).isSome) :
    (cacheGet (getOrFetchArchiveBuffer fetch cache pkgkey).2.1 k).isSome := by
  cases hc : cacheGet cache (pkgkey ++ ".tar.gz") with
  | some b => rw [getOrFetch_hit fetch cache pkgkey b hc]; exact h
  | none =>
    cases hf : fetch pkgkey with
    | error e => rw [getOrFetch_miss_error fetch cache pkgkey e hc hf]; exact h
    | ok b =>
      rw [getOrFetch_miss_ok fetch cache pkgkey b hc hf]
      exact cacheGet_isSome_cacheSet _ _ _ _ h

theorem getOrFetch_key_isSome (fetch : String → Except String Buffer)
    (cache : Cache) (pkgkey : String) (b : Buffer) (hf : fetch pkgkey = .ok b) :
    (cacheGet (getOrFetchArchiveBuffer fetch cache pkgkey).2.1
      (pkgkey ++ ".tar.gz")).isSome := by
  cases hc : cacheGet cache (pkgkey ++ ".tar.gz") with
  | some b0 => rw [getOrFetch_hit fetch cache pkgkey b0 hc]; simp [hc]
  | none =>
    rw [getOrFetch_miss_ok fetch cache pkgkey b hc hf]
    simp [cacheGet_cacheSet]

theorem getArchiveInfo_count (decode : Buffer → Except String (List ArchiveEntry))
    (fetch : String → Except String Buffer) (cache : Cache) (pkgkey : String)
    (filter : ArchiveEntry → Bool) :
    (getArchiveInfo decode fetch cache pkgkey filter).2.2 =
      (getOrFetchArchiveBuffer fetch cache pkgkey).2.2 := by
  rcases hr : getOrFetchArchiveBuffer fetch cache pkgkey with ⟨res, c1, n⟩
  cases res with
  | error e => simp [getArchiveInfo, hr]
  | ok ab =>
    cases hu : decode ab with
    | error e => simp [getArchiveInfo, untarBuffer, Except.map, hr, hu]
    | ok entries => simp [getArchiveInfo, untarBuffer, Except.map, hr, hu]

theorem getArchiveInfo_isSome_mono (decode : Buffer → Except String (List ArchiveEntry))
    (fetch : String → Except String Buffer) (cache : Cache) (pkgkey : String)
    (filter : ArchiveEntry → Bool) (k : String)
    (h : (cacheGet (getOrFetchArchiveBuffer fetch cache pkgkey).2.1 k).isSome) :
    (cacheGet (getArchiveInfo decode fetch cache pkgkey filter).2.1 k).isSome := by
  rcases hr : getOrFetchArchiveBuffer fetch cache pkgkey with ⟨res, c1, n⟩
  rw [hr] at h
  cases res with
  | error e => simpa [getArchiveInfo, hr] using h
  | ok ab =>
    cases hu : decode ab with
    | error e => simpa [getArchiveInfo, untarBuffer, Except.map, hr, hu] using h
    | ok entries =>
      have := foldl_onEntryStep_isSome (entries.filter filter) c1 [] k h
      simpa [getArchiveInfo, untarBuffer, Except.map, hr, hu] using this

theorem getArchiveInfo_eq_of (decode : Buffer → Except String (List ArchiveEntry))
    (fetch : String → Except String Buffer) (cache : Cache) (pkgkey : String)
    (filter : ArchiveEntry → Bool) (ab : Buffer) (cache1 : Cache) (n : Nat)
    (entries : List ArchiveEntry)
    (hbuf : getOrFetchArchiveBuffer fetch cache pkgkey = (.ok ab, cache1, n))
    (hdec : decode ab = .ok entries) :
    getArchiveInfo decode fetch cache pkgkey filter =
      (.ok (((entries.filter filter).filter acceptsEntry).map (·.path)),
        ((entries.filter filter).foldl onEntryStep (cache1, [])).1, n) := by
  have hsnd := foldl_onEntryStep_snd (entries.filter filter) cache1 []
  simp only [List.nil_append] at hsnd
  simp [getArchiveInfo, untarBuffer, Except.map, hbuf, hdec, hsnd]

/-- A sequence of `getArchiveInfo` calls within one process lifetime,
threading the process-wide cache, while counting the network fetches made
by the calls whose pkgkey equals `target`. -/
def runCalls (decode : Buffer → Except String (List ArchiveEntry))
    (fetch : String → Except String Buffer) (target : String)
    (st : Cache × Nat) (calls : List (String × (ArchiveEntry → Bool))) :
    Cache × Nat :=
  calls.foldl (fun st call =>
    let r := getArchiveInfo decode fetch st.1 call.1 call.2
    (r.2.1, st.2 + (if call.1 == target then r.2.2 else 0))) st

theorem runCalls_add (decode : Buffer → Except String (List ArchiveEntry))
    (fetch : String → Except String Buffer) (target : String) (c : Cache)
    (m : Nat) (calls : List (String × (ArchiveEntry → Bool))) :
    (runCalls decode fetch target (c, m) calls).2 =
      m + (runCalls decode fetch target (c, 0) calls).2 := by
  induction calls generalizing c m with
  | nil => simp [runCalls]
  | cons call rest ih =>
    simp only [runCalls, List.foldl_cons] at *
    have h1 := ih ((getArchiveInfo decode fetch c call.1 call.2).2.1)
      (m + (if call.1 == target then
        (getArchiveInfo decode fetch c call.1 call.2).2.2 else 0))
    have h2 := ih ((getArchiveInfo decode fetch c call.1 call.2).2.1)
      (0 + (if call.1 == target then
        (getArchiveInfo decode fetch c call.1 call.2).2.2 else 0))
    rw [h1, h2]
    omega

theorem runCalls_of_cached (decode : Buffer → Except String (List ArchiveEntry))
    (fetch : String → Except String Buffer) (target : String) (c : Cache)
    (m : Nat) (calls : List (String × (ArchiveEntry → Bool)))
    (h : (cacheGet c (target ++ ".tar.gz")).isSome) :
    (runCalls decode fetch target (c, m) calls).2 = m := by
  induction calls generalizing c m with
  | nil => rfl
  | cons call rest ih =>
    simp only [runCalls, List.foldl_cons]
    have hmono : (cacheGet (getArchiveInfo decode fetch c call.1 call.2).2.1
        (target ++ ".tar.gz")).isSome :=
      getArchiveInfo_isSome_mono decode fetch c call.1 call.2 _
        (getOrFetch_isSome_mono fetch c call.1 _ h)
    have hcount : (if call.1 == target then
        (getArchiveInfo decode fetch c call.1 call.2).2.2 else 0) = 0 := by
      by_cases hk : call.1 == target
      · obtain ⟨b, hb⟩ := Option.isSome_iff_exists.mp h
        have hk' : call.1 = target := by simpa using hk
        rw [if_pos hk, getArchiveInfo_count, hk',
          getOrFetch_hit fetch c target b hb]
      · rw [if_neg hk]
    have := ih ((getArchiveInfo decode fetch c call.1 call.2).2.1)
      (m + (if call.1 == target then
        (getArchiveInfo decode fetch c call.1 call.2).2.2 else 0)) hmono
    simp only [runCalls] at this
    rw [this, hcount]
    omega

theorem lookupType_insertType (tm : TypeMap) (t t' : String) (p : AssetParts) :
    lookupType (insertType t p tm) t' =
      if t = t' then some (((lookupType tm t').getD []) ++ [p])
      else lookupType tm t' := by
  induction tm with
  | nil =>
    by_cases h : t = t'
    · subst h; simp [insertType, lookupType, List.find?]
    · have hb : (t == t') = false := by simp [h]
      simp [insertType, lookupType, List.find?, hb, h]
  | cons kv rest ih =>
    obtain ⟨k, l⟩ := kv
    by_cases hk : k = t
    · subst hk
      by_cases h : k = t'
      · subst h; simp [insertType, lookupType, List.find?]
      · have hb : (k == t') = false := by simp [h]
        simp [insertType, lookupType, List.find?, hb, h]
    · have hbk : (k == t) = false := by simp [hk]
      by_cases h' : k = t'
      · subst h'
        have hne : t ≠ k := fun he => hk he.symm
        simp [insertType, lookupType, List.find?, hbk, hne]
      · have hb' : (k == t') = false := by simp [h']
        simp only [insertType, hbk, Bool.false_eq_true, if_false]
        simp only [lookupType, List.find?, hb']
        exact ih

theorem groupAt_cons_pos (k : String) (tm : TypeMap) (rest : ServiceMap)
    (t' : String) :
    groupAt ((k, tm) :: rest) k t' = (lookupType tm t').getD [] := by
  simp only [groupAt, lookupSvc, List.find?, beq_self_eq_true, Option.map_some]
  cases hl : lookupType tm t' <;> simp [hl]

theorem groupAt_cons_neg (k : String) (tm : TypeMap) (rest : ServiceMap)
    (s' t' : String) (h : k ≠ s') :
    groupAt ((k, tm) :: rest) s' t' = groupAt rest s' t' := by
  have hb : (k == s') = false := by simp [h]
  simp only [groupAt, lookupSvc, List.find?, hb]

theorem groupAt_insertSvc (m : ServiceMap) (s t s' t' : String) (p : AssetParts) :
    groupAt (insertSvc s t p m) s' t' =
      groupAt m s' t' ++ (if s = s' ∧ t = t' then [p] else []) := by
  induction m with
  | nil =>
    by_cases hs : s = s'
    · subst hs
      by_cases ht : t = t'
      · subst ht
        simp [insertSvc, insertType, groupAt, lookupSvc, lookupType, List.find?]
      · have hbt : (t == t') = false := by simp [ht]
        simp [insertSvc, insertType, groupAt, lookupSvc, lookupType, List.find?,
          hbt, ht]
    · have hbs : (s == s') = false := by simp [hs]
      simp [insertSvc, groupAt, lookupSvc, List.find?, hbs, hs]
  | cons kv rest ih =>
    obtain ⟨k, tm⟩ := kv
    by_cases hk : k = s
    · subst hk
      have hins : insertSvc k t p ((k, tm) :: rest) = (k, insertType t p tm) :: rest := by
        simp [insertSvc]
      rw [hins]
      by_cases hs : k = s'
      · subst hs
        rw [groupAt_cons_pos, groupAt_cons_pos, lookupType_insertType]
        by_cases ht : t = t'
        · subst ht
          rw [if_pos rfl, if_pos ⟨rfl, rfl⟩]
          simp
        · rw [if_neg ht, if_neg (fun hc => ht hc.2)]
          simp
      · rw [groupAt_cons_neg _ _ _ _ _ hs, groupAt_cons_neg _ _ _ _ _ hs,
          if_neg (fun hc => hs hc.1)]
        simp
    · have hins : insertSvc s t p ((k, tm) :: rest) = (k, tm) :: insertSvc s t p rest := by
        have hb : (k == s) = false := by simp [hk]
        simp [insertSvc, hb]
      rw [hins]
      by_cases hs' : k = s'
      · subst hs'
        rw [groupAt_cons_pos, groupAt_cons_pos, if_neg (fun hc => hk hc.1.symm)]
        simp
      · rw [groupAt_cons_neg _ _ _ _ _ hs', groupAt_cons_neg _ _ _ _ _ hs', ih]

theorem groupAt_foldl (isKAT : String → Bool) (paths : List String)
    (m : ServiceMap) (s t : String) :
    groupAt (paths.foldl (groupStep isKAT) m) s t =
      groupAt m s t ++
        ((acceptedParts isKAT paths).filter
          (fun parts => jsStr parts.service == s && jsStr parts.type == t)) := by
  induction paths generalizing m with
  | nil => simp [acceptedParts]
  | cons p rest ih =>
    rw [List.foldl_cons, ih]
    have hstep : acceptedParts isKAT (p :: rest) =
        (if isKAT (jsStr (pathParts (stripLeadingPackage p)).type) then
          [pathParts (stripLeadingPackage p)] else []) ++ acceptedParts isKAT rest := by
      by_cases ha : isKAT (jsStr (pathParts (stripLeadingPackage p)).type) = true
      · simp [acceptedParts, List.filter_cons, ha]
      · simp [acceptedParts, List.filter_cons, ha]
    rw [hstep]
    by_cases ha : isKAT (jsStr (pathParts (stripLeadingPackage p)).type) = true
    · rw [if_pos ha]
      have hgs : groupStep isKAT m p =
          insertSvc (jsStr (pathParts (stripLeadingPackage p)).service)
            (jsStr (pathParts (stripLeadingPackage p)).type)
            (pathParts (stripLeadingPackage p)) m := by
        simp [groupStep, ha]
      rw [hgs, groupAt_insertSvc]
      by_cases hcond : jsStr (pathParts (stripLeadingPackage p)).service = s ∧
          jsStr (pathParts (stripLeadingPackage p)).type = t
      · rw [if_pos hcond]
        simp [List.filter_cons, hcond.1, hcond.2, List.append_assoc]
      · rw [if_neg hcond]
        have hfil : (jsStr (pathParts (stripLeadingPackage p)).service == s &&
            jsStr (pathParts (stripLeadingPackage p)).type == t) = false := by
          rcases not_and_or.mp hcond with hne | hne <;> simp [hne]
        simp [List.filter_cons, hfil]
    · rw [if_neg ha]
      have hgs : groupStep isKAT m p = m := by
        simp [groupStep, ha]
      rw [hgs]
      simp

theorem pathParts_path_field (path : String) : (pathParts path).path = path := by
  simp only [pathParts]
  split
  · simp only [finishParts]
    split <;> rfl
  · simp only [finishParts]
    split <;> rfl

/-- C6: for every path with exactly four slash-separated segments whose
second segment is not the literal `dataset`, `pathParts` returns pkgkey,
service, type and file equal to segments 1-4, no dataset, and the original
path string. -/
theorem pathParts_four_segments (path a b c d : String)
    (h : jsSplit path '/' = [a, b, c, d]) (hb : b ≠ "dataset") :
    pathParts path = ⟨some a, some b, some c, some d, none, path⟩ := by
  have hbne : (some b == some "dataset") = false := by simp [hb]
  simp [pathParts, finishParts, h, hbne]

/-- Witness for C6 at the concrete path
`pkg-1.0/kibana/dashboard/sample.json`. -/
theorem pathParts_four_segments_witness :
    jsSplit "pkg-1.0/kibana/dashboard/sample.json" '/' =
      ["pkg-1.0", "kibana", "dashboard", "sample.json"] ∧
    "kibana" ≠ "dataset" ∧
    pathParts "pkg-1.0/kibana/dashboard/sample.json" =
      ⟨some "pkg-1.0", some "kibana", some "dashboard", some "sample.json",
        none, "pkg-1.0/kibana/dashboard/sample.json"⟩ :=
  ⟨by decide, by decide,
    pathParts_four_segments _ _ _ _ _ (by decide) (by decide)⟩

/-- C7: on `pkg-1.0/dataset/ds1/logs/log/file.yml` the dataset marker is
detected, the dataset name `ds1` is saved, the `dataset/ds1/` portion is
removed and the remainder re-split, yielding pkgkey `pkg-1.0`, service
`logs`, type `log`, file `file.yml`, dataset `ds1`. -/
theorem pathParts_dataset_example :
    pathParts "pkg-1.0/dataset/ds1/logs/log/file.yml" =
      ⟨some "pkg-1.0", some "logs", some "log", some "file.yml", some "ds1",
        "pkg-1.0/dataset/ds1/logs/log/file.yml"⟩ := by decide

/-- C8: every 3-segment path without the dataset marker takes the
fields-shift: file is the third segment, type is the literal `fields`,
service is the empty string and dataset is undefined. -/
theorem pathParts_three_segments (path a b c : String)
    (h : jsSplit path '/' = [a, b, c]) (hb : b ≠ "dataset") :
    pathParts path = ⟨some a, some "", some "fields", some c, none, path⟩ := by
  have hbne : (some b == some "dataset") = false := by simp [hb]
  simp [pathParts, finishParts, h, hbne]

/-- Witness for C8 at the spec's example path `pkg-1.0/kibana/fields.yml`. -/
theorem pathParts_three_segments_witness :
    jsSplit "pkg-1.0/kibana/fields.yml" '/' =
      ["pkg-1.0", "kibana", "fields.yml"] ∧
    "kibana" ≠ "dataset" ∧
    pathParts "pkg-1.0/kibana/fields.yml" =
      ⟨some "pkg-1.0", some "", some "fields", some "fields.yml", none,
        "pkg-1.0/kibana/fields.yml"⟩ :=
  ⟨by decide, by decide,
    pathParts_three_segments "pkg-1.0/kibana/fields.yml" "pkg-1.0" "kibana"
      "fields.yml" (by decide) (by decide)⟩

/-- C9: `pathParts` is total; in particular on every path with fewer than
three slash-separated segments it returns a structured record whose `path`
field is the input string. -/
theorem pathParts_total (path : String)
    (_hlen : (jsSplit path '/').length < 3) :
    (pathParts path).path = path :=
  pathParts_path_field path

/-- Witness for C9 at the empty string (one segment after splitting). -/
theorem pathParts_total_witness :
    (jsSplit "" '/').length < 3 ∧ (pathParts "").path = "" :=
  ⟨by decide, pathParts_total "" (by decide)⟩

/-- C10 counterexample: on `pkg-1.0/dataset/ds1/fields.yml` the claimed
record with `file = "fields.yml"` is not what `pathParts` returns (the
re-split remainder `pkg-1.0/fields.yml` has only two segments, so the
shift moves the undefined `type` into `file`). -/
theorem pathParts_dataset_fields_cex :
    pathParts "pkg-1.0/dataset/ds1/fields.yml" ≠
      ⟨some "pkg-1.0", some "", some "fields", some "fields.yml", some "ds1",
        "pkg-1.0/dataset/ds1/fields.yml"⟩ := by decide

/-- C10 amended: the fields-shift does apply after dataset stripping, but
on `pkg-1.0/dataset/ds1/fields.yml` the re-split remainder has only two
segments, so `file` is undefined (not `fields.yml`): the result is pkgkey
`pkg-1.0`, service `""`, type `fields`, file undefined, dataset `ds1`. -/
theorem pathParts_dataset_fields_amended :
    pathParts "pkg-1.0/dataset/ds1/fields.yml" =
      ⟨some "pkg-1.0", some "", some "fields", none, some "ds1",
        "pkg-1.0/dataset/ds1/fields.yml"⟩ := by decide

/-- C1: across any sequence of `getArchiveInfo` calls sharing one
process-lifetime cache, the archive bytes of a pkgkey whose download
succeeds are fetched from the network at most once; the first call that
misses the cache downloads and caches the buffer under
`` `${pkgkey}.tar.gz` `` and every later call for that pkgkey is served
from the cache without a download. -/
theorem archive_fetched_at_most_once
    (decode : Buffer → Except String (List ArchiveEntry))
    (fetch : String → Except String Buffer) (cache : Cache)
    (calls : List (String × (ArchiveEntry → Bool))) (target : String)
    (b : Buffer) (hf : fetch target = .ok b) :
    (runCalls decode fetch target (cache, 0) calls).2 ≤ 1 := by
  induction calls generalizing cache with
  | nil => simp [runCalls]
  | cons call rest ih =>
    have hcons : runCalls decode fetch target (cache, 0) (call :: rest) =
        runCalls decode fetch target
          ((getArchiveInfo decode fetch cache call.1 call.2).2.1,
            0 + (if call.1 == target then
              (getArchiveInfo decode fetch cache call.1 call.2).2.2 else 0))
          rest := rfl
    rw [hcons, runCalls_add]
    by_cases hk : (call.1 == target) = true
    · have hk' : call.1 = target := by simpa using hk
      subst hk'
      cases hc : cacheGet cache (call.1 ++ ".tar.gz") with
      | some b0 =>
        have hcnt : (getArchiveInfo decode fetch cache call.1 call.2).2.2 = 0 := by
          rw [getArchiveInfo_count, getOrFetch_hit fetch cache call.1 b0 hc]
        have hS : (cacheGet (getArchiveInfo decode fetch cache call.1 call.2).2.1
            (call.1 ++ ".tar.gz")).isSome :=
          getArchiveInfo_isSome_mono decode fetch cache call.1 call.2 _
            (getOrFetch_isSome_mono fetch cache call.1 _ (by simp [hc]))
        rw [runCalls_of_cached decode fetch call.1 _ 0 rest hS]
        simp [hcnt]
      | none =>
        have hcnt : (getArchiveInfo decode fetch cache call.1 call.2).2.2 = 1 := by
          rw [getArchiveInfo_count, getOrFetch_miss_ok fetch cache call.1 b hc hf]
        have hS : (cacheGet (getArchiveInfo decode fetch cache call.1 call.2).2.1
            (call.1 ++ ".tar.gz")).isSome :=
          getArchiveInfo_isSome_mono decode fetch cache call.1 call.2 _
            (getOrFetch_key_isSome fetch cache call.1 b hf)
        rw [runCalls_of_cached decode fetch call.1 _ 0 rest hS]
        simp [hcnt]
    · have hite : (if call.1 == target then
          (getArchiveInfo decode fetch cache call.1 call.2).2.2 else 0) = 0 := by
        rw [if_neg hk]
      rw [hite]
      simpa using ih ((getArchiveInfo decode fetch cache call.1 call.2).2.1)

/-- A transport whose download for every pkgkey succeeds with the one-byte
buffer `[7]`, used to instantiate the fetch-counting theorems. -/
def constFetch : String → Except String Buffer := fun _ => .ok [7]

/-- An archive decoding in which every buffer decodes to an empty entry
list, used to instantiate the fetch-counting theorems. -/
def constDecode : Buffer → Except String (List ArchiveEntry) := fun _ => .ok []

/-- Witness for C1: two successive `getArchiveInfo` calls for pkgkey
`pkg` on an initially empty cache perform at most one fetch. -/
theorem archive_fetched_at_most_once_witness :
    constFetch "pkg" = .ok [7] ∧
    (runCalls constDecode constFetch "pkg" ([], 0)
      [("pkg", fun _ => true), ("pkg", fun _ => true)]).2 ≤ 1 :=
  ⟨rfl, archive_fetched_at_most_once constDecode constFetch []
    [("pkg", fun _ => true), ("pkg", fun _ => true)] "pkg" [7] rfl⟩

/-- C2 counterexample: with a transport that returns an empty byte buffer,
`getArchiveInfo` raises no error at all — the result is `.ok` — and the
empty buffer is cached under the archive key and passed downstream to
extraction, contradicting the claim that an ArchiveUnavailable error
identifying the key is raised on empty bytes. -/
theorem getArchiveInfo_empty_buffer_cex :
    (getArchiveInfo (fun _ => .ok []) (fun _ => .ok []) [] "pkg"
      (fun _ => true)).1 = .ok [] ∧
    cacheGet (getArchiveInfo (fun _ => .ok []) (fun _ => .ok []) [] "pkg"
      (fun _ => true)).2.1 "pkg.tar.gz" = some [] :=
  ⟨rfl, rfl⟩

/-- C2 amended: on a cache miss, a failed fetch makes `getArchiveInfo` fail
by propagating the fetch's own error (not a dedicated ArchiveUnavailable
error naming the key), while a successful fetch — even of an empty buffer —
is cached under `` `${pkgkey}.tar.gz` `` and returned to be passed
downstream to extraction; the internal `no archive buffer` guard is
unreachable because a present buffer is always truthy. -/
theorem getArchiveInfo_fetch_outcomes
    (decode : Buffer → Except String (List ArchiveEntry))
    (fetch : String → Except String Buffer) (cache : Cache) (pkgkey : String)
    (filter : ArchiveEntry → Bool)
    (hmiss : cacheGet cache (pkgkey ++ ".tar.gz") = none) :
    (∀ e, fetch pkgkey = .error e →
      getArchiveInfo decode fetch cache pkgkey filter = (.error e, cache, 1)) ∧
    (∀ b, fetch pkgkey = .ok b →
      getOrFetchArchiveBuffer fetch cache pkgkey =
        (.ok b, cacheSet cache (pkgkey ++ ".tar.gz") b, 1)) := by
  constructor
  · intro e hf
    have h := getOrFetch_miss_error fetch cache pkgkey e hmiss hf
    simp [getArchiveInfo, h]
  · intro b hf
    exact getOrFetch_miss_ok fetch cache pkgkey b hmiss hf

/-- Witness for C2's amended statement: on an empty cache, the empty fetched
buffer for `pkg` comes back `.ok` and is cached. -/
theorem getArchiveInfo_fetch_outcomes_witness :
    cacheGet [] ("pkg" ++ ".tar.gz") = none ∧
    getOrFetchArchiveBuffer (fun _ => .ok []) [] "pkg" =
      (.ok [], cacheSet [] ("pkg" ++ ".tar.gz") [], 1) :=
  ⟨rfl,
    (getArchiveInfo_fetch_outcomes constDecode (fun _ => .ok []) [] "pkg"
      (fun _ => true) rfl).2 [] rfl⟩

/-- C3 counterexample: the path `pkg-1.0/elasticsearch/dashboard/x.json`
parses to service `elasticsearch` with a recognized type, yet
`groupPathsByService` returns a result in which it appears nowhere (the
`kibana` property is absent), contradicting the claim that every
recognized-type path is placed in the result under its parsed service. -/
theorem groupPathsByService_drops_non_kibana_cex :
    (fun t => t == "dashboard")
        (jsStr (pathParts "pkg-1.0/elasticsearch/dashboard/x.json").type) = true ∧
    (pathParts "pkg-1.0/elasticsearch/dashboard/x.json").service =
      some "elasticsearch" ∧
    groupPathsByService (fun t => t == "dashboard")
      ["pkg-1.0/elasticsearch/dashboard/x.json"] = none :=
  ⟨by decide, by decide, by decide⟩

/-- C3 amended: after stripping the `/package/` prefix, paths of
unrecognized types are dropped; the remaining paths are grouped by parsed
service and type, each exactly once in input order — but the returned value
exposes only the `kibana` service group, so recognized-type paths of other
services are absent from the result. -/
theorem groupPathsByService_kibana (isKAT : String → Bool)
    (paths : List String) (t : String) :
    kibanaGroupAt (groupPathsByService isKAT paths) t =
      (acceptedParts isKAT paths).filter
        (fun parts => jsStr parts.service == "kibana" && jsStr parts.type == t) := by
  have h := groupAt_foldl isKAT paths [] "kibana" t
  have hnil : groupAt ([] : ServiceMap) "kibana" t = [] := rfl
  rw [hnil, List.nil_append] at h
  exact h

/-- C4: `getArchiveInfo` returns exactly the paths of the filter-accepted
entries that have a truthy parsed `file` component and carry a content
buffer, and caches each such path to that entry's buffer (stated under
distinctness of the accepted paths); directory-like entries are excluded
from both the result and the cache even when the filter accepted them: the
third conjunct shows that extraction never writes any path whose parsed
`file` is falsy (empty or undefined) — the cache at every such path is
exactly what it was before extraction started.  No side condition is
needed there, because an accepted entry always has a truthy parsed `file`
at its own path, so it can never share a directory-like path. -/
theorem getArchiveInfo_spec (decode : Buffer → Except String (List ArchiveEntry))
    (fetch : String → Except String Buffer) (cache : Cache) (pkgkey : String)
    (filter : ArchiveEntry → Bool) (ab : Buffer) (cache1 : Cache) (n : Nat)
    (entries : List ArchiveEntry)
    (hbuf : getOrFetchArchiveBuffer fetch cache pkgkey = (.ok ab, cache1, n))
    (hdec : decode ab = .ok entries)
    (hnodup : (((entries.filter filter).filter acceptsEntry).map (·.path)).Nodup) :
    (getArchiveInfo decode fetch cache pkgkey filter).1 =
      .ok (((entries.filter filter).filter acceptsEntry).map (·.path)) ∧
    (∀ e ∈ (entries.filter filter).filter acceptsEntry, ∀ b, e.buffer = some b →
      cacheGet (getArchiveInfo decode fetch cache pkgkey filter).2.1 e.path =
        some b) ∧
    ∀ p : String, jsFalsy (pathParts p).file = true →
      cacheGet (getArchiveInfo decode fetch cache pkgkey filter).2.1 p =
        cacheGet cache1 p := by
  have heq := getArchiveInfo_eq_of decode fetch cache pkgkey filter ab cache1 n
    entries hbuf hdec
  refine ⟨?_, ?_, ?_⟩
  · rw [heq]
  · intro e he b hb
    rw [heq]
    have hmem := List.mem_filter.mp he
    exact foldl_onEntryStep_cacheGet (entries.filter filter) cache1 [] hnodup e
      hmem.1 hmem.2 b hb
  · intro p hp
    rw [heq]
    refine foldl_onEntryStep_get_untouched (entries.filter filter) cache1 [] p ?_
    intro e _ hacc heq'
    simp only [acceptsEntry, Bool.and_eq_true] at hacc
    rw [heq', hp] at hacc
    simp at hacc

/-- The spec's scenario archive for `system-1.2.0`: one file entry with
content bytes and one directory entry without a buffer. -/
def sampleEntries : List ArchiveEntry :=
  [⟨"system-1.2.0/kibana/dashboard/sample.json", some [1, 2, 3]⟩,
   ⟨"system-1.2.0/kibana/dashboard/", none⟩]

/-- An archive decoding in which every buffer decodes to the scenario
entries. -/
def sampleDecode : Buffer → Except String (List ArchiveEntry) :=
  fun _ => .ok sampleEntries

/-- A transport whose download always succeeds with the buffer `[0]`. -/
def sampleFetch : String → Except String Buffer := fun _ => .ok [0]

/-- Witness for C4 at the spec's scenario: exactly one path is returned
(the file, not the directory), the file's bytes are cached under its path,
and the directory entry's path — accepted by the all-true filter — is
absent from the final cache. -/
theorem getArchiveInfo_spec_witness :
    (getArchiveInfo sampleDecode sampleFetch [] "system-1.2.0"
      (fun _ => true)).1 = .ok ["system-1.2.0/kibana/dashboard/sample.json"] ∧
    cacheGet (getArchiveInfo sampleDecode sampleFetch [] "system-1.2.0"
        (fun _ => true)).2.1 "system-1.2.0/kibana/dashboard/sample.json" =
      some [1, 2, 3] ∧
    cacheGet (getArchiveInfo sampleDecode sampleFetch [] "system-1.2.0"
        (fun _ => true)).2.1 "system-1.2.0/kibana/dashboard/" = none := by
  have h := getArchiveInfo_spec sampleDecode sampleFetch [] "system-1.2.0"
    (fun _ => true) [0] [("system-1.2.0.tar.gz", [0])] 1 sampleEntries rfl rfl
    (by decide)
  refine ⟨h.1,
    h.2.1 ⟨"system-1.2.0/kibana/dashboard/sample.json", some [1, 2, 3]⟩
      (by decide) [1, 2, 3] rfl, ?_⟩
  have h3 := h.2.2 "system-1.2.0/kibana/dashboard/" (by decide)
  rw [h3]
  decide

/-- C5: `getAsset` on a key absent from the cache fails with the
`Cannot find asset` error naming the key and returns no buffer; after a
`getArchiveInfo` call has cached an accepted entry's path, `getAsset` on
that path returns exactly that entry's bytes. -/
theorem getAsset_spec (cacheU : Cache) (keyU : String)
    (hmissU : cacheGet cacheU keyU = none)
    (decode : Buffer → Except String (List ArchiveEntry))
    (fetch : String → Except String Buffer) (cache : Cache) (pkgkey : String)
    (filter : ArchiveEntry → Bool) (ab : Buffer) (cache1 : Cache) (n : Nat)
    (entries : List ArchiveEntry)
    (hbuf : getOrFetchArchiveBuffer fetch cache pkgkey = (.ok ab, cache1, n))
    (hdec : decode ab = .ok entries)
    (hnodup : (((entries.filter filter).filter acceptsEntry).map (·.path)).Nodup)
    (e : ArchiveEntry) (he : e ∈ (entries.filter filter).filter acceptsEntry)
    (b : Buffer) (hb : e.buffer = some b) :
    getAsset cacheU keyU = .error ("Cannot find asset " ++ keyU) ∧
    getAsset (getArchiveInfo decode fetch cache pkgkey filter).2.1 e.path =
      .ok b := by
  constructor
  · simp [getAsset, hmissU]
  · have heq := getArchiveInfo_eq_of decode fetch cache pkgkey filter ab cache1 n
      entries hbuf hdec
    have hmem := List.mem_filter.mp he
    have hget := foldl_onEntryStep_cacheGet (entries.filter filter) cache1 []
      hnodup e hmem.1 hmem.2 b hb
    rw [heq]
    simp [getAsset, hget]

/-- Witness for C5: an unfetched key fails with the asset-not-found error,
and the scenario file's path returns its exact bytes after extraction. -/
theorem getAsset_spec_witness :
    getAsset [] "missing.yml" = .error ("Cannot find asset " ++ "missing.yml") ∧
    getAsset (getArchiveInfo sampleDecode sampleFetch [] "system-1.2.0"
        (fun _ => true)).2.1 "system-1.2.0/kibana/dashboard/sample.json" =
      .ok [1, 2, 3] :=
  getAsset_spec [] "missing.yml" rfl sampleDecode sampleFetch [] "system-1.2.0"
    (fun _ => true) [0] [("system-1.2.0.tar.gz", [0])] 1 sampleEntries rfl rfl
    (by decide)
    ⟨"system-1.2.0/kibana/dashboard/sample.json", some [1, 2, 3]⟩ (by decide)
    [1, 2, 3] rfl
